import Mathlib

/-!
Verification of the shop record-keeping core (`models.py`, `db.py`).

Conventions of the embedding:
* SQLite `REAL` / Python `float` values are modelled as exact rationals (`Rat`);
  arithmetic claims are settled exactly.
* SQLite tables are lists of row structures; `AUTOINCREMENT` primary keys are
  modelled by explicit `next_*` counters on the store.
* A Python `sqlite3` connection commits only when `conn.commit()` runs; an
  exception skips the commit and `conn.close()` rolls the pending changes back.
  Fallible operations therefore return `Except`: an `.ok` carries the committed
  store, an `.error` leaves the caller's store untouched (the `run*` wrappers
  make the persisted state explicit).
* Strings are compared byte-wise (SQLite BINARY collation); for the ASCII data
  the code manipulates this is lexicographic comparison of the character lists.
* Python regex character classes `\w` and `\d` are modelled on their ASCII
  fragment; Python's `$` anchor also matches just before a single newline at
  the very end of the string, which the embedding reproduces.
-/

/-! ### Character classes and Python string helpers -/

/-- ASCII fragment of Python's regex class `\w`: letters, digits, underscore. -/
def isWordChar (c : Char) : Bool :=
  c.isAlpha || c.isDigit || c = '_'

/-- The character class `[\w\.-]` used by the e-mail pattern of
`Client._validate_email`. -/
def isEmailClass (c : Char) : Bool :=
  isWordChar c || c = '.' || c = '-'

/-- ASCII whitespace stripped by Python's `str.strip()`. -/
def isPySpace (c : Char) : Bool :=
  c = ' ' || c = '\t' || c = '\n' || c = '\r' || c = '\x0b' || c = '\x0c'

/-- Python `str.strip()`: drop whitespace from both ends. -/
def pyStrip (s : String) : String :=
  ⟨((s.data.dropWhile isPySpace).reverse.dropWhile isPySpace).reverse⟩

/-- Byte-wise (SQLite BINARY collation) `≤` on character lists. -/
def strLeB : List Char → List Char → Bool
  | [], _ => true
  | _ :: _, [] => false
  | x :: xs, y :: ys => if x < y then true else if y < x then false else strLeB xs ys

/-- Byte-wise `≤` on strings. -/
def sLe (a b : String) : Bool := strLeB a.data b.data

/-- SQL `MAX` step for `TEXT` values under BINARY collation. -/
def sMax (a b : String) : String := if sLe a b then b else a

/-! ### The validators of `models.py` (`Client._validate_email`, `Client._validate_phone`)

`re.match(r'^[\w\.-]+@[\w\.-]+\.\w+$', s)` and `re.match(r'^\+?\d{10,15}$', s)`.
The matchers below are structural-recursion transcriptions of the regex
backtracking search; `pyDollar` adds Python's `$`-before-final-newline rule. -/

/-- Matches `\.\w+` against the whole remaining input. -/
def dotTail : List Char → Bool
  | [] => false
  | c :: rest => c == '.' && !rest.isEmpty && rest.all isWordChar

/-- Matches `[\w\.-]+\.\w+` against the whole remaining input: at least one
class character, then a dot, then a non-empty word-character tail. -/
def domCore : List Char → Bool
  | [] => false
  | c :: rest => isEmailClass c && (dotTail rest || domCore rest)

/-- Matches `[\w\.-]+@[\w\.-]+\.\w+` against the whole input. -/
def emailCore : List Char → Bool
  | [] => false
  | c :: rest => isEmailClass c && ((rest.head? == some '@' && domCore rest.tail) || emailCore rest)

/-- Matches `\+?\d{10,15}` against the whole input. -/
def phoneCore (cs : List Char) : Bool :=
  let ds := if cs.head? == some '+' then cs.tail else cs
  ds.all Char.isDigit && decide (10 ≤ ds.length) && decide (ds.length ≤ 15)

/-- Python full-pattern acceptance for an anchored `^...$` pattern: the core
matches the whole string, or the whole string minus one final newline
(CPython's `$` also matches just before a terminating newline). -/
def pyDollar (core : List Char → Bool) (cs : List Char) : Bool :=
  core cs || (cs.getLast? == some '\n' && core cs.dropLast)

/-- `Client._validate_email` of `models.py`. -/
def validate_email (email : String) : Bool := pyDollar emailCore email.data

/-- `Client._validate_phone` of `models.py`. -/
def validate_phone (phone : String) : Bool := pyDollar phoneCore phone.data

/-! ### Spec-side shapes for the refinement claims C8 and C9 -/

/-- Modelled from the spec: the shape `local-part@domain.tld` — local part and
domain built from word characters, dot and hyphen, a single `@`, and a final
`.tld` component of word characters after the `@`. -/
def EmailShape (cs : List Char) : Prop :=
  ∃ L A B : List Char,
    cs = L ++ '@' :: (A ++ '.' :: B) ∧
    L ≠ [] ∧ (∀ c ∈ L, isEmailClass c = true) ∧
    A ≠ [] ∧ (∀ c ∈ A, isEmailClass c = true) ∧
    B ≠ [] ∧ (∀ c ∈ B, isWordChar c = true)

/-- Modelled from the spec: an optional leading `+` followed by 10 to 15
digits and nothing else. -/
def PhoneShape (cs : List Char) : Prop :=
  ∃ ds : List Char,
    (cs = '+' :: ds ∨ cs = ds) ∧
    (∀ c ∈ ds, Char.isDigit c = true) ∧
    10 ≤ ds.length ∧ ds.length ≤ 15

/-! ### `models.py`: Client, Product, Order, SpecialOrder -/

/-- Validation failures of `Client.__init__` (`ValueError` in the source). -/
inductive ClientErr where
  | badEmail
  | badPhone
deriving DecidableEq

/-- A validated in-memory client (the fields set by `Client.__init__`). -/
structure ClientV where
  name : String
  email : String
  phone : String
  address : String
deriving DecidableEq

/-- `Client.__init__`: validates the raw e-mail, then the raw phone, and
stores the stripped fields. -/
def makeClient (name email phone address : String) : Except ClientErr ClientV :=
  if validate_email email then
    if validate_phone phone then
      .ok ⟨pyStrip name, pyStrip email, pyStrip phone, pyStrip address⟩
    else .error .badPhone
  else .error .badEmail

/-- An in-memory `Product` (name, price, description). -/
structure Product where
  name : String
  price : Rat
  description : String
deriving DecidableEq

/-- Failures of `Order.__init__` / `SpecialOrder.__init__`. -/
inductive OrderErr where
  | invalidQuantity
  | invalidDiscount
deriving DecidableEq

/-- The item-validation loop of `Order.__init__`: every quantity must be
positive; the validated pairs are collected in order. -/
def checkItems : List (Product × Int) → Except OrderErr (List (Product × Int))
  | [] => .ok []
  | (p, q) :: rest =>
    if q ≤ 0 then .error .invalidQuantity
    else
      match checkItems rest with
      | .error e => .error e
      | .ok r => .ok ((p, q) :: r)

/-- `sum(p.price * q for p, q in items)`. -/
def orderTotal (items : List (Product × Int)) : Rat :=
  (items.map (fun pq => pq.1.price * (pq.2 : Rat))).sum

/-- A constructed `Order` value. -/
structure OrderV where
  order_id : Int
  client : ClientV
  items : List (Product × Int)
  date : String
  total_cost : Rat

/-- `Order.__init__`. -/
def mkOrder (order_id : Int) (client : ClientV) (items : List (Product × Int))
    (date : String) : Except OrderErr OrderV :=
  match checkItems items with
  | .error e => .error e
  | .ok its => .ok ⟨order_id, client, its, date, orderTotal its⟩

/-- A constructed `SpecialOrder` value. -/
structure SpecialOrderV where
  order_id : Int
  client : ClientV
  items : List (Product × Int)
  date : String
  discount : Rat
  total_cost : Rat

/-- `SpecialOrder._apply_discount`: recompute the item sum and scale it by
`1 - discount/100`. -/
def applyDiscount (items : List (Product × Int)) (discount : Rat) : Rat :=
  orderTotal items * (1 - discount / 100)

/-- `SpecialOrder.__init__`: run `Order.__init__`, then validate
`0 <= discount <= 100`, then overwrite `total_cost` with the discounted sum. -/
def mkSpecialOrder (order_id : Int) (client : ClientV) (items : List (Product × Int))
    (date : String) (discount : Rat) : Except OrderErr SpecialOrderV :=
  match mkOrder order_id client items date with
  | .error e => .error e
  | .ok o =>
    if 0 ≤ discount ∧ discount ≤ 100 then
      .ok ⟨order_id, client, o.items, date, discount, applyDiscount o.items discount⟩
    else .error .invalidDiscount

/-! ### `db.py`: the relational store

Row structures mirror the `CREATE TABLE` statements of `init_db`. Note that
`sqlite3` never executes `PRAGMA foreign_keys = ON`, so the declared
`FOREIGN KEY` clauses are *not* enforced at insert time; the embedding is
faithful to that (inserts do not check referenced rows). -/

/-- A row of `clients(id, name, email UNIQUE, phone, address)`. -/
structure ClientRow where
  id : Nat
  name : String
  email : String
  phone : String
  address : String
deriving DecidableEq

/-- A row of `products(id, name, price, description)`. -/
structure ProductRow where
  id : Nat
  name : String
  price : Rat
  description : String
deriving DecidableEq

/-- A row of `orders(id, client_id, date, total_cost)`. -/
structure OrderRow where
  id : Nat
  client_id : Nat
  date : String
  total_cost : Rat
deriving DecidableEq

/-- A row of `order_items(id, order_id, product_id, quantity, unit_price)`. -/
structure OrderItemRow where
  id : Nat
  order_id : Nat
  product_id : Nat
  quantity : Int
  unit_price : Rat
deriving DecidableEq

/-- The database state: the four tables plus the `AUTOINCREMENT` counters of
the two tables whose generated keys the code reads back. -/
structure Store where
  clients : List ClientRow
  products : List ProductRow
  orders : List OrderRow
  order_items : List OrderItemRow
  next_order_id : Nat
  next_item_id : Nat
deriving DecidableEq

/-- Errors raised by the data-access layer (`ValueError` / `IntegrityError`
in the source). -/
inductive DbError where
  | emptyCart
  | invalidQuantity
  | productNotFound (pid : Nat)
  | constraintViolation
deriving DecidableEq

/-- `SELECT price FROM products WHERE id = ?` followed by `fetchone()`. -/
def lookupPrice (s : Store) (pid : Nat) : Option Rat :=
  (s.products.find? (fun p => p.id == pid)).map (fun p => p.price)

/-- Python dict update `prices[pid] = price` on an association list. -/
def dictUpd (d : List (Nat × Rat)) (k : Nat) (v : Rat) : List (Nat × Rat) :=
  match d with
  | [] => [(k, v)]
  | (k0, v0) :: rest => if k0 = k then (k, v) :: rest else (k0, v0) :: dictUpd rest k v

/-- Python dict read `prices[pid]`. On every path the code reaches it the key
is present (established by `priceItems_ok`), so the default is never hit. -/
def dictGet (d : List (Nat × Rat)) (k : Nat) : Rat :=
  ((d.find? (fun kv => kv.1 == k)).map (fun kv => kv.2)).getD 0

/-- The first loop of `add_order_with_items`: per item check the quantity,
look the product's price up, record it in `prices` and accumulate the total. -/
def priceItems (s : Store) : List (Nat × Int) → Rat → List (Nat × Rat) →
    Except DbError (Rat × List (Nat × Rat))
  | [], total, prices => .ok (total, prices)
  | (pid, qty) :: rest, total, prices =>
    if qty ≤ 0 then .error .invalidQuantity
    else
      match lookupPrice s pid with
      | none => .error (.productNotFound pid)
      | some price => priceItems s rest (total + price * (qty : Rat)) (dictUpd prices pid price)

/-- The second loop of `add_order_with_items`: insert one `order_items` row
per input pair, carrying the snapshotted `prices[pid]`. -/
def insertItems (oid : Nat) (prices : List (Nat × Rat)) : Store → List (Nat × Int) → Store
  | st, [] => st
  | st, (pid, qty) :: rest =>
      insertItems oid prices
        { st with
          order_items := st.order_items ++ [⟨st.next_item_id, oid, pid, qty, dictGet prices pid⟩],
          next_item_id := st.next_item_id + 1 } rest

/-- `add_order_with_items(client_id, items, date)`: validate and price the
items, insert the order row, insert the item rows, commit, and return the new
order id. Any error leaves the store unchanged (no commit before `close`). -/
def add_order_with_items (s : Store) (client_id : Nat) (items : List (Nat × Int))
    (date : String) : Except DbError (Store × Nat) :=
  if items.isEmpty then .error .emptyCart
  else
    match priceItems s items 0 [] with
    | .error e => .error e
    | .ok (total, prices) =>
      let oid := s.next_order_id
      let s1 : Store :=
        { s with
          orders := s.orders ++ [⟨oid, client_id, date, total⟩],
          next_order_id := oid + 1 }
      .ok (insertItems oid prices s1 items, oid)

/-- The store as persisted after a call of `add_order_with_items`: the
committed store on success, the unchanged store when the call raised
(the connection is closed without committing, rolling the writes back). -/
def runAddOrder (s : Store) (client_id : Nat) (items : List (Nat × Int))
    (date : String) : Store :=
  match add_order_with_items s client_id items date with
  | .ok (s1, _) => s1
  | .error _ => s

/-- Spec-side total of an items list against the current product table:
`Σ price(productId) × quantity` with the price looked up per occurrence. -/
def orderTotalSpec (s : Store) (items : List (Nat × Int)) : Rat :=
  (items.map (fun pq => ((lookupPrice s pq.1).getD 0) * (pq.2 : Rat))).sum

/-- Spec-side `order_items` rows for an order `oid`: one row per input pair
in order, ids consecutive from `startId`, unit price snapshotted from the
current product table. -/
def itemRowsSpec (s : Store) (oid : Nat) : Nat → List (Nat × Int) → List OrderItemRow
  | _, [] => []
  | startId, (pid, qty) :: rest =>
    ⟨startId, oid, pid, qty, (lookupPrice s pid).getD 0⟩ :: itemRowsSpec s oid (startId + 1) rest

/-! ### `db.py`: analytics queries -/

/-- Ordering by a primary metric descending with a boolean secondary
comparison on ties — the shape of every `ORDER BY` in `db.py`. -/
def keyedLe {α κ : Type} [LinearOrder κ] (m : α → κ) (le2 : α → α → Bool) (a b : α) : Prop :=
  m b < m a ∨ (m a = m b ∧ le2 a b = true)

instance keyedLeDec {α κ : Type} [LinearOrder κ] (m : α → κ) (le2 : α → α → Bool) :
    DecidableRel (keyedLe m le2) := fun a b =>
  inferInstanceAs (Decidable (m b < m a ∨ (m a = m b ∧ le2 a b = true)))

/-- The joined rows of `get_client_purchase_history` before grouping:
`order_items JOIN orders ON o.id = oi.order_id (o.client_id = ?) JOIN
products ON p.id = oi.product_id`, projected to `(p.name, oi.quantity, o.date)`. -/
def purchase_rows (s : Store) (cid : Nat) : List (String × Int × String) :=
  s.order_items.flatMap (fun oi =>
    (s.orders.filter (fun o => o.id == oi.order_id && o.client_id == cid)).flatMap (fun o =>
      (s.products.filter (fun p => p.id == oi.product_id)).map (fun p =>
        (p.name, oi.quantity, o.date))))

/-- `GROUP BY p.name` with `SUM(oi.quantity)` and `MAX(o.date)`: one output
row per distinct product *name* among the joined rows. -/
def groupRows (rows : List (String × Int × String)) : List (String × Int × String) :=
  ((rows.map (fun r => r.1)).dedup).map (fun n =>
    (n, ((rows.filter (fun r => r.1 == n)).map (fun r => r.2.1)).sum,
        ((rows.filter (fun r => r.1 == n)).map (fun r => r.2.2)).foldl sMax ""))

/-- `ORDER BY total_qty DESC, last_date DESC` on history rows. -/
def histLe : (String × Int × String) → (String × Int × String) → Prop :=
  keyedLe (fun r => r.2.1) (fun a b => strLeB b.2.2.data a.2.2.data)

instance histLeDec : DecidableRel histLe := keyedLeDec _ _

/-- `get_client_purchase_history(client_id)` of `db.py`. -/
def get_client_purchase_history (s : Store) (cid : Nat) : List (String × Int × String) :=
  List.insertionSort histLe (groupRows (purchase_rows s cid))

/-- `COUNT(o.id)` for one client under the `LEFT JOIN` of
`top5_clients_by_orders`: the number of order rows of that client. -/
def ordersCount (s : Store) (c : ClientRow) : Nat :=
  (s.orders.filter (fun o => o.client_id == c.id)).length

/-- `COALESCE(SUM(oi.quantity), 0)` for one client under the two `LEFT JOIN`s
of `top5_clients_by_items`: summed quantities over the client's orders. -/
def itemsCount (s : Store) (c : ClientRow) : Int :=
  ((s.orders.filter (fun o => o.client_id == c.id)).map (fun o =>
    ((s.order_items.filter (fun oi => oi.order_id == o.id)).map (fun oi => oi.quantity)).sum)).sum

/-- `ORDER BY orders_count DESC, c.name ASC` on `(name, email, count)` rows. -/
def ordersLe : (String × String × Nat) → (String × String × Nat) → Prop :=
  keyedLe (fun r => r.2.2) (fun a b => strLeB a.1.data b.1.data)

/-- `ORDER BY items_count DESC, c.name ASC` on `(name, email, count)` rows. -/
def itemsLe : (String × String × Int) → (String × String × Int) → Prop :=
  keyedLe (fun r => r.2.2) (fun a b => strLeB a.1.data b.1.data)

instance ordersLeDec : DecidableRel ordersLe := keyedLeDec _ _

instance itemsLeDec : DecidableRel itemsLe := keyedLeDec _ _

/-- The grouped and ordered rows of `top5_clients_by_orders` before `LIMIT 5`
(`GROUP BY c.id` yields one row per client, clients without orders counting 0). -/
def sortedOrderRows (s : Store) : List (String × String × Nat) :=
  List.insertionSort ordersLe (s.clients.map (fun c => (c.name, c.email, ordersCount s c)))

/-- `top5_clients_by_orders()` of `db.py`. -/
def top5_clients_by_orders (s : Store) : List (String × String × Nat) :=
  (sortedOrderRows s).take 5

/-- The grouped and ordered rows of `top5_clients_by_items` before `LIMIT 5`. -/
def sortedItemRows (s : Store) : List (String × String × Int) :=
  List.insertionSort itemsLe (s.clients.map (fun c => (c.name, c.email, itemsCount s c)))

/-- `top5_clients_by_items()` of `db.py`. -/
def top5_clients_by_items (s : Store) : List (String × String × Int) :=
  (sortedItemRows s).take 5

/-! ### `db.py`: bulk import (`import_from_csv` / `import_from_json`)

Both functions share one control structure: open a connection, insert every
record with `cur.execute`, and call `conn.commit()` only after the loop; a
failing insert raises out of the loop, so the commit never runs and the
`finally: conn.close()` rolls every pending row back. The import is modelled
on the `clients` table, the one whose declared constraints (`UNIQUE` e-mail,
the `INTEGER PRIMARY KEY` id) can reject a row at insert time. -/

/-- Whether an incoming row violates a declared constraint of `clients`
against the rows already in the table: duplicate e-mail (`UNIQUE`) or
duplicate id (`INTEGER PRIMARY KEY`). -/
def rowClash (cs : List ClientRow) (r : ClientRow) : Bool :=
  cs.any (fun c => c.email == r.email || c.id == r.id)

/-- The insert loop of `import_from_csv` / `import_from_json` on the
`clients` table: insert each row in order into the pending transaction,
aborting at the first constraint violation. -/
def import_clients : Store → List ClientRow → Except DbError Store
  | st, [] => .ok st
  | st, r :: rest =>
    if rowClash st.clients r then .error .constraintViolation
    else import_clients { st with clients := st.clients ++ [r] } rest

/-- The store as persisted after an import call: the committed store when
every row inserted (the single `conn.commit()` after the loop), the unchanged
store when a row failed (no commit; `conn.close()` rolls back). -/
def run_import_clients (s : Store) (rows : List ClientRow) : Store :=
  match import_clients s rows with
  | .ok st => st
  | .error _ => s

/-! ### Concrete stores for witnesses and counterexamples -/

/-- A store with one product (id 1, price 5) and *no* clients. -/
def storeNoClients : Store :=
  ⟨[], [⟨1, "Prod", 5, ""⟩], [], [], 1, 1⟩

/-- A store where client 1 purchased two *distinct* products that share the
name `"Apple"`. -/
def storeTwoApples : Store :=
  ⟨[⟨1, "C", "c@x.com", "+71234567890", "A"⟩],
   [⟨1, "Apple", 2, ""⟩, ⟨2, "Apple", 3, ""⟩],
   [⟨1, 1, "2024-01-01", 5⟩],
   [⟨1, 1, 1, 1, 2⟩, ⟨2, 1, 2, 1, 3⟩], 2, 3⟩

/-- A store with two products and one client, used by the order witnesses. -/
def storeBase : Store :=
  ⟨[⟨1, "C", "c@x.com", "+71234567890", "A"⟩],
   [⟨1, "Pen", 3, ""⟩, ⟨2, "Ink", 7, ""⟩],
   [], [], 1, 1⟩

/-- A client value for the in-memory order witnesses. -/
def clientW : ClientV := ⟨"C", "c@x.com", "+71234567890", "A"⟩

/-! ### Regex matcher lemmas -/

theorem dotTail_iff (R : List Char) :
    dotTail R = true ↔ ∃ B, R = '.' :: B ∧ B ≠ [] ∧ ∀ c ∈ B, isWordChar c = true := by
  cases R with
  | nil => simp [dotTail]
  | cons c rest =>
    simp only [dotTail, Bool.and_eq_true, beq_iff_eq, Bool.not_eq_true',
      List.all_eq_true, List.cons.injEq]
    constructor
    · rintro ⟨⟨hc, hne⟩, hall⟩
      exact ⟨rest, ⟨hc, rfl⟩, by simpa [List.isEmpty_iff] using hne, hall⟩
    · rintro ⟨B, ⟨hc, hB⟩, hne, hall⟩
      subst hB
      exact ⟨⟨hc, by simpa [List.isEmpty_iff] using hne⟩, hall⟩

theorem domCore_iff (R : List Char) :
    domCore R = true ↔
      ∃ A B, R = A ++ '.' :: B ∧ A ≠ [] ∧ (∀ c ∈ A, isEmailClass c = true) ∧
        B ≠ [] ∧ (∀ c ∈ B, isWordChar c = true) := by
  induction R with
  | nil =>
    constructor
    · intro h
      simp [domCore] at h
    · rintro ⟨A, B, h, -⟩
      exact absurd h.symm (by simp)
  | cons c rest ih =>
    simp only [domCore, Bool.and_eq_true, Bool.or_eq_true]
    constructor
    · rintro ⟨hc, hdot | hdom⟩
      · obtain ⟨B, hB, hBne, hBall⟩ := (dotTail_iff rest).1 hdot
        exact ⟨[c], B, by simp [hB], by simp, by simpa using hc, hBne, hBall⟩
      · obtain ⟨A, B, hR, hAne, hAall, hBne, hBall⟩ := ih.1 hdom
        refine ⟨c :: A, B, by simp [hR], by simp, ?_, hBne, hBall⟩
        intro x hx
        rcases List.mem_cons.mp hx with h | h
        · subst h; exact hc
        · exact hAall x h
    · rintro ⟨A, B, hR, hAne, hAall, hBne, hBall⟩
      cases A with
      | nil => exact absurd rfl hAne
      | cons a A2 =>
        simp only [List.cons_append, List.cons.injEq] at hR
        obtain ⟨hca, hrest⟩ := hR
        subst hca
        refine ⟨hAall _ (by simp), ?_⟩
        cases A2 with
        | nil =>
          left
          exact (dotTail_iff rest).2 ⟨B, by simpa using hrest, hBne, hBall⟩
        | cons a2 A3 =>
          right
          refine ih.2 ⟨a2 :: A3, B, by simpa using hrest, by simp, ?_, hBne, hBall⟩
          exact fun x hx => hAall x (List.mem_cons_of_mem _ hx)

theorem emailCore_iff (cs : List Char) : emailCore cs = true ↔ EmailShape cs := by
  induction cs with
  | nil =>
    constructor
    · intro h
      simp [emailCore] at h
    · rintro ⟨L, A, B, h, -⟩
      exact absurd h.symm (by simp)
  | cons c rest ih =>
    simp only [emailCore, Bool.and_eq_true, Bool.or_eq_true]
    constructor
    · rintro ⟨hc, ⟨hat, hdom⟩ | hem⟩
      · cases rest with
        | nil => simp at hat
        | cons r rt =>
          simp only [List.head?_cons, beq_iff_eq, Option.some.injEq] at hat
          subst hat
          obtain ⟨A, B, hR, hAne, hAall, hBne, hBall⟩ :=
            (domCore_iff rt).1 (by simpa using hdom)
          exact ⟨[c], A, B, by simp [hR], by simp, by simpa using hc,
            hAne, hAall, hBne, hBall⟩
      · obtain ⟨L, A, B, hR, hLne, hLall, hrest⟩ := ih.1 hem
        refine ⟨c :: L, A, B, by simp [hR], by simp, ?_, hrest⟩
        intro x hx
        rcases List.mem_cons.mp hx with h | h
        · subst h; exact hc
        · exact hLall x h
    · rintro ⟨L, A, B, hR, hLne, hLall, hAne, hAall, hBne, hBall⟩
      cases L with
      | nil => exact absurd rfl hLne
      | cons l L2 =>
        simp only [List.cons_append, List.cons.injEq] at hR
        obtain ⟨hcl, hrest⟩ := hR
        subst hcl
        refine ⟨hLall _ (by simp), ?_⟩
        cases L2 with
        | nil =>
          left
          simp only [List.nil_append] at hrest
          subst hrest
          refine ⟨by simp, ?_⟩
          simpa using (domCore_iff (A ++ '.' :: B)).2 ⟨A, B, rfl, hAne, hAall, hBne, hBall⟩
        | cons l2 L3 =>
          right
          refine ih.2 ⟨l2 :: L3, A, B, by simpa using hrest, by simp, ?_,
            hAne, hAall, hBne, hBall⟩
          exact fun x hx => hLall x (List.mem_cons_of_mem _ hx)

theorem phoneCore_iff (cs : List Char) : phoneCore cs = true ↔ PhoneShape cs := by
  cases cs with
  | nil =>
    constructor
    · intro h
      simp [phoneCore] at h
    · rintro ⟨ds, hds | hds, hall, hlo, hhi⟩
      · exact absurd hds (by simp)
      · subst hds
        simp at hlo
  | cons c rest =>
    by_cases hc : c = '+'
    · subst hc
      have h1 : phoneCore ('+' :: rest) =
          (rest.all Char.isDigit && decide (10 ≤ rest.length) && decide (rest.length ≤ 15)) := by
        simp [phoneCore]
      rw [h1]
      constructor
      · intro h
        simp only [Bool.and_eq_true, List.all_eq_true, decide_eq_true_eq] at h
        exact ⟨rest, Or.inl rfl, h.1.1, h.1.2, h.2⟩
      · rintro ⟨ds, hds | hds, hall, hlo, hhi⟩
        · obtain ⟨-, hrest⟩ := List.cons.inj hds
          subst hrest
          simp only [Bool.and_eq_true, List.all_eq_true, decide_eq_true_eq]
          exact ⟨⟨hall, hlo⟩, hhi⟩
        · exfalso
          have h2 : ('+' : Char) ∈ ds := by
            rw [← hds]; exact List.mem_cons_self _ _
          exact absurd (hall _ h2) (by decide)
    · have h1 : phoneCore (c :: rest) =
          ((c :: rest).all Char.isDigit && decide (10 ≤ (c :: rest).length) &&
            decide ((c :: rest).length ≤ 15)) := by
        simp [phoneCore, hc]
      rw [h1]
      constructor
      · intro h
        simp only [Bool.and_eq_true, List.all_eq_true, decide_eq_true_eq] at h
        exact ⟨c :: rest, Or.inr rfl, h.1.1, h.1.2, h.2⟩
      · rintro ⟨ds, hds | hds, hall, hlo, hhi⟩
        · exact absurd (List.cons.inj hds).1 hc
        · subst hds
          simp only [Bool.and_eq_true, List.all_eq_true, decide_eq_true_eq]
          exact ⟨⟨hall, hlo⟩, hhi⟩

theorem pyDollar_iff {core : List Char → Bool} {P : List Char → Prop}
    (hcore : ∀ cs, core cs = true ↔ P cs) (cs : List Char) :
    pyDollar core cs = true ↔
      (P cs ∨ (cs.getLast? = some '\n' ∧ P cs.dropLast)) := by
  simp [pyDollar, Bool.or_eq_true, Bool.and_eq_true, beq_iff_eq, hcore]

/-! ### Claims C5, C8, C9: client validation -/

/-- C5: `makeClient` succeeds exactly when the e-mail and the phone pass
their patterns (applied to the inputs as given), the stored fields then equal
the trimmed inputs, and it fails with a validation error exactly when the
e-mail or the phone fails its pattern; name and address are never checked. -/
theorem C5_makeClient_trim_and_validate (name email phone address : String) :
    (∀ cv, makeClient name email phone address = .ok cv ↔
      (validate_email email = true ∧ validate_phone phone = true ∧
        cv = ⟨pyStrip name, pyStrip email, pyStrip phone, pyStrip address⟩)) ∧
    ((∃ e, makeClient name email phone address = .error e) ↔
      (validate_email email = false ∨ validate_phone phone = false)) := by
  unfold makeClient
  by_cases he : validate_email email
  · by_cases hp : validate_phone phone
    · simp [he, hp, eq_comm]
    · rw [Bool.not_eq_true] at hp
      simp [he, hp]
  · rw [Bool.not_eq_true] at he
    simp [he]

/-- C5 witness: a concrete client with padded name and address. -/
theorem C5_witness :
    makeClient " Ivan " "ivan@example.com" "+71234567890" " Moscow " =
      .ok ⟨"Ivan", "ivan@example.com", "+71234567890", "Moscow"⟩ :=
  ((C5_makeClient_trim_and_validate " Ivan " "ivan@example.com" "+71234567890" " Moscow ").1
    ⟨"Ivan", "ivan@example.com", "+71234567890", "Moscow"⟩).2
    ⟨by decide, by decide, by decide⟩

/-- C8 counterexample: CPython's `$` also matches just before a final
newline, so `validate_email` accepts `"a@b.cc\n"`, which is not of the
claimed `local-part@domain.tld` shape (it contains a newline). -/
theorem C8_counterexample :
    validate_email "a@b.cc\n" = true ∧ ¬ EmailShape "a@b.cc\n".data := by
  refine ⟨by decide, fun h => ?_⟩
  exact absurd ((emailCore_iff _).2 h) (by decide)

/-- C8 amended: `validate_email s` is true exactly when `s`, or `s` minus a
single trailing newline, has the `local-part@domain.tld` shape (word
characters, dot and hyphen in local part and domain, one `@`, a final
word-character tld after a dot); every string rejected by the pattern makes
`makeClient` fail with the e-mail validation error. -/
theorem C8_validate_email_shape (s : String) :
    (validate_email s = true ↔
      (EmailShape s.data ∨ (s.data.getLast? = some '\n' ∧ EmailShape s.data.dropLast))) ∧
    (validate_email s = false → ∀ n p a, makeClient n s p a = .error .badEmail) := by
  constructor
  · exact pyDollar_iff emailCore_iff s.data
  · intro hf n p a
    unfold makeClient
    simp [hf]

/-- C8 witness: the amended characterization at a concrete accepted string. -/
theorem C8_witness :
    EmailShape "x@y.zz".data ∨
      ("x@y.zz".data.getLast? = some '\n' ∧ EmailShape "x@y.zz".data.dropLast) :=
  (C8_validate_email_shape "x@y.zz").1.mp (by decide)

/-- C9 counterexample: `validate_phone` accepts `"1234567890\n"` (ten digits
plus a trailing newline, via CPython's `$` rule), which contains a character
other than digits and a leading `+`. -/
theorem C9_counterexample :
    validate_phone "1234567890\n" = true ∧ ¬ PhoneShape "1234567890\n".data := by
  refine ⟨by decide, fun h => ?_⟩
  exact absurd ((phoneCore_iff _).2 h) (by decide)

/-- C9 amended: `validate_phone s` is true exactly when `s`, or `s` minus a
single trailing newline, is an optional `+` followed by 10 to 15 digits;
every rejected phone makes `makeClient` (with a valid e-mail) fail with the
phone validation error. -/
theorem C9_validate_phone_shape (s : String) :
    (validate_phone s = true ↔
      (PhoneShape s.data ∨ (s.data.getLast? = some '\n' ∧ PhoneShape s.data.dropLast))) ∧
    (validate_phone s = false → ∀ n e a, validate_email e = true →
      makeClient n e s a = .error .badPhone) := by
  constructor
  · exact pyDollar_iff phoneCore_iff s.data
  · intro hf n e a he
    unfold makeClient
    simp [hf, he]

/-- C9 witness: the amended characterization at a concrete accepted phone. -/
theorem C9_witness :
    PhoneShape "+71234567890".data ∨
      ("+71234567890".data.getLast? = some '\n' ∧ PhoneShape "+71234567890".data.dropLast) :=
  (C9_validate_phone_shape "+71234567890").1.mp (by decide)

/-! ### Claim C6: the discounted order variant -/

theorem checkItems_ok (items : List (Product × Int)) (h : ∀ pq ∈ items, 0 < pq.2) :
    checkItems items = .ok items := by
  induction items with
  | nil => rfl
  | cons pq rest ih =>
    obtain ⟨p, q⟩ := pq
    have hq : 0 < q := h (p, q) (by simp)
    simp only [checkItems, if_neg (by omega : ¬ q ≤ 0)]
    rw [ih (fun x hx => h x (List.mem_cons_of_mem _ hx))]

/-- C6: with all quantities positive, a discount `d ∈ [0, 100]` yields a
`SpecialOrder` whose `total_cost` is the base total scaled by `1 - d/100`,
and a discount outside `[0, 100]` fails with the invalid-discount error. -/
theorem C6_special_order_discount (oid : Int) (client : ClientV)
    (items : List (Product × Int)) (date : String) (d : Rat)
    (hq : ∀ pq ∈ items, 0 < pq.2) :
    ((0 ≤ d ∧ d ≤ 100) →
      mkSpecialOrder oid client items date d =
        .ok ⟨oid, client, items, date, d, orderTotal items * (1 - d / 100)⟩) ∧
    (¬ (0 ≤ d ∧ d ≤ 100) →
      mkSpecialOrder oid client items date d = .error .invalidDiscount) := by
  have hok : mkOrder oid client items date = .ok ⟨oid, client, items, date, orderTotal items⟩ := by
    unfold mkOrder
    rw [checkItems_ok items hq]
  constructor
  · intro hd
    simp only [mkSpecialOrder, hok, if_pos hd]
    rfl
  · intro hd
    simp only [mkSpecialOrder, hok, if_neg hd]

/-- C6 witness: one item of price 200, quantity 1: discount 10 gives total
`200 * 0.9`; discount 110 is rejected. -/
theorem C6_witness :
    (mkSpecialOrder 2 clientW [(⟨"A", 200, ""⟩, 1)] "2023-10-02" 10 =
      .ok ⟨2, clientW, [(⟨"A", 200, ""⟩, 1)], "2023-10-02", 10,
        orderTotal [(⟨"A", 200, ""⟩, 1)] * (1 - 10 / 100)⟩) ∧
    (mkSpecialOrder 2 clientW [(⟨"A", 200, ""⟩, 1)] "2023-10-02" 110 =
      .error .invalidDiscount) :=
  ⟨(C6_special_order_discount 2 clientW [(⟨"A", 200, ""⟩, 1)] "2023-10-02" 10
      (by decide)).1 ⟨by decide, by decide⟩,
   (C6_special_order_discount 2 clientW [(⟨"A", 200, ""⟩, 1)] "2023-10-02" 110
      (by decide)).2 (by decide)⟩

/-! ### Claims C1, C2, C3: order creation -/

theorem dictGet_cons (k0 : Nat) (v0 : Rat) (rest : List (Nat × Rat)) (k : Nat) :
    dictGet ((k0, v0) :: rest) k = if k0 = k then v0 else dictGet rest k := by
  by_cases h : k0 = k
  · rw [if_pos h]
    unfold dictGet
    rw [List.find?_cons_of_pos _ (by simpa using h)]
    rfl
  · rw [if_neg h]
    unfold dictGet
    rw [List.find?_cons_of_neg _ (by simpa using h)]

theorem dictGet_dictUpd (d : List (Nat × Rat)) (k k2 : Nat) (v : Rat) :
    dictGet (dictUpd d k v) k2 = if k2 = k then v else dictGet d k2 := by
  induction d with
  | nil =>
    rw [show dictUpd [] k v = [(k, v)] from rfl, dictGet_cons]
    by_cases h : k2 = k
    · subst h; simp
    · rw [if_neg (fun hh => h hh.symm), if_neg h]
  | cons kv rest ih =>
    obtain ⟨k0, v0⟩ := kv
    by_cases h0 : k0 = k
    · subst h0
      rw [show dictUpd ((k0, v0) :: rest) k0 v = (k0, v) :: rest from by simp [dictUpd],
        dictGet_cons]
      by_cases h2 : k2 = k0
      · subst h2; simp
      · rw [if_neg (fun hh => h2 hh.symm), if_neg h2, dictGet_cons,
          if_neg (fun hh => h2 hh.symm)]
    · rw [show dictUpd ((k0, v0) :: rest) k v = (k0, v0) :: dictUpd rest k v from by
        simp [dictUpd, h0], dictGet_cons]
      by_cases h2 : k0 = k2
      · subst h2
        rw [if_pos rfl, if_neg h0, dictGet_cons, if_pos rfl]
      · rw [if_neg h2, ih]
        by_cases hk : k2 = k
        · simp [hk]
        · rw [if_neg hk, if_neg hk, dictGet_cons, if_neg h2]

theorem priceItems_ok (s : Store) (items : List (Nat × Int)) :
    ∀ (t0 : Rat) (p0 : List (Nat × Rat)),
      (∀ pq ∈ items, 0 < pq.2 ∧ (lookupPrice s pq.1).isSome = true) →
      ∃ pr, priceItems s items t0 p0 = .ok (t0 + orderTotalSpec s items, pr) ∧
        (∀ k, k ∈ items.map Prod.fst → dictGet pr k = (lookupPrice s k).getD 0) ∧
        (∀ k, k ∉ items.map Prod.fst → dictGet pr k = dictGet p0 k) := by
  induction items with
  | nil =>
    intro t0 p0 _
    exact ⟨p0, by simp [priceItems, orderTotalSpec], by simp, fun k _ => rfl⟩
  | cons pq rest ih =>
    intro t0 p0 h
    obtain ⟨pid, qty⟩ := pq
    obtain ⟨hq, hsome⟩ := h (pid, qty) (by simp)
    obtain ⟨price, hprice⟩ := Option.isSome_iff_exists.mp hsome
    obtain ⟨pr, heq, hin, hout⟩ :=
      ih (t0 + price * (qty : Rat)) (dictUpd p0 pid price)
        (fun x hx => h x (List.mem_cons_of_mem _ hx))
    refine ⟨pr, ?_, ?_, ?_⟩
    · simp only [priceItems, if_neg (by omega : ¬ qty ≤ 0), hprice, heq]
      have harith : (t0 + price * (qty : Rat)) + orderTotalSpec s rest =
          t0 + orderTotalSpec s ((pid, qty) :: rest) := by
        simp only [orderTotalSpec, List.map_cons, List.sum_cons, hprice, Option.getD_some]
        ring
      rw [harith]
    · intro k hk
      by_cases hkr : k ∈ rest.map Prod.fst
      · exact hin k hkr
      · have hkpid : k = pid := by
          simp only [List.map_cons, List.mem_cons] at hk
          tauto
        subst hkpid
        rw [hout k hkr, dictGet_dictUpd, if_pos rfl, hprice]
        rfl
    · intro k hk
      have hkpid : ¬ k = pid := fun hh => hk (by simp [hh])
      have hkr : k ∉ rest.map Prod.fst := fun hh => hk (by simp [hh])
      rw [hout k hkr, dictGet_dictUpd, if_neg hkpid]

theorem itemRowsSpec_map (s : Store) (oid : Nat) (items : List (Nat × Int)) :
    ∀ n, (itemRowsSpec s oid n items).map (fun oi => (oi.product_id, oi.quantity, oi.unit_price)) =
      items.map (fun pq => (pq.1, pq.2, (lookupPrice s pq.1).getD 0)) := by
  induction items with
  | nil => intro n; rfl
  | cons pq rest ih =>
    intro n
    obtain ⟨pid, qty⟩ := pq
    simp [itemRowsSpec, ih]

theorem itemRowsSpec_order_id (s : Store) (oid : Nat) (items : List (Nat × Int)) :
    ∀ n, ∀ oi ∈ itemRowsSpec s oid n items, oi.order_id = oid := by
  induction items with
  | nil => intro n oi h; simp [itemRowsSpec] at h
  | cons pq rest ih =>
    intro n oi h
    obtain ⟨pid, qty⟩ := pq
    simp only [itemRowsSpec, List.mem_cons] at h
    rcases h with h | h
    · rw [h]
    · exact ih (n + 1) oi h

theorem itemRowsSpec_length (s : Store) (oid : Nat) (items : List (Nat × Int)) :
    ∀ n, (itemRowsSpec s oid n items).length = items.length := by
  induction items with
  | nil => intro n; rfl
  | cons pq rest ih =>
    intro n
    obtain ⟨pid, qty⟩ := pq
    simp [itemRowsSpec, ih]

theorem insertItems_eq (oid : Nat) (pr : List (Nat × Rat)) (s : Store)
    (items : List (Nat × Int)) :
    ∀ st : Store,
      (∀ pq ∈ items, dictGet pr pq.1 = (lookupPrice s pq.1).getD 0) →
      insertItems oid pr st items =
        { st with
          order_items := st.order_items ++ itemRowsSpec s oid st.next_item_id items,
          next_item_id := st.next_item_id + items.length } := by
  induction items with
  | nil =>
    intro st _
    cases st
    simp [insertItems, itemRowsSpec]
  | cons pq rest ih =>
    intro st h
    obtain ⟨pid, qty⟩ := pq
    simp only [insertItems]
    rw [ih _ (fun x hx => h x (List.mem_cons_of_mem _ hx))]
    cases st
    simp only [Store.mk.injEq, and_true, true_and, itemRowsSpec, List.length_cons]
    refine ⟨?_, by omega⟩
    rw [List.append_assoc]
    simp [h (pid, qty) (by simp)]

/-- C1: for a non-empty items list with positive quantities and existing
products, `add_order_with_items` commits and returns the fresh order id; the
persisted order's `total_cost` is exactly `Σ price(productId) × quantity`
(duplicates accumulating, each at the snapshot price), and exactly
`len(items)` `order_items` rows exist for that order, each carrying the
snapshotted unit price. -/
theorem C1_add_order_total_and_items (s : Store) (cid : Nat) (items : List (Nat × Int))
    (date : String)
    (hne : items ≠ [])
    (hval : ∀ pq ∈ items, 0 < pq.2 ∧ (lookupPrice s pq.1).isSome = true)
    (hwf : ∀ oi ∈ s.order_items, oi.order_id ≠ s.next_order_id) :
    ∃ s1, add_order_with_items s cid items date = .ok (s1, s.next_order_id) ∧
      s1.orders = s.orders ++ [⟨s.next_order_id, cid, date, orderTotalSpec s items⟩] ∧
      ((s1.order_items.filter (fun oi => oi.order_id == s.next_order_id)).map
        (fun oi => (oi.product_id, oi.quantity, oi.unit_price))) =
        items.map (fun pq => (pq.1, pq.2, (lookupPrice s pq.1).getD 0)) ∧
      (s1.order_items.filter (fun oi => oi.order_id == s.next_order_id)).length =
        items.length := by
  obtain ⟨pr, heq, hin, -⟩ := priceItems_ok s items 0 [] hval
  rw [zero_add] at heq
  set oid := s.next_order_id with hoid
  set s1 : Store :=
    { s with
      orders := s.orders ++ [⟨oid, cid, date, orderTotalSpec s items⟩],
      next_order_id := oid + 1 } with hs1
  have hpr : ∀ pq ∈ items, dictGet pr pq.1 = (lookupPrice s pq.1).getD 0 :=
    fun pq hpq => hin pq.1 (List.mem_map_of_mem _ hpq)
  have hins := insertItems_eq oid pr s items s1 hpr
  have hadd : add_order_with_items s cid items date =
      .ok (insertItems oid pr s1 items, oid) := by
    unfold add_order_with_items
    rw [if_neg (by simp [List.isEmpty_iff, hne]), heq]
  refine ⟨insertItems oid pr s1 items, hadd, ?_, ?_, ?_⟩
  · rw [hins]
  · rw [hins]
    show ((s.order_items ++ itemRowsSpec s oid s.next_item_id items).filter
      (fun oi => oi.order_id == oid)).map _ = _
    rw [List.filter_append]
    have hold : s.order_items.filter (fun oi => oi.order_id == oid) = [] := by
      rw [List.filter_eq_nil_iff]
      intro oi hoi
      simpa using hwf oi hoi
    have hnew : (itemRowsSpec s oid s.next_item_id items).filter
        (fun oi => oi.order_id == oid) = itemRowsSpec s oid s.next_item_id items := by
      rw [List.filter_eq_self]
      intro oi hoi
      simpa using itemRowsSpec_order_id s oid items s.next_item_id oi hoi
    rw [hold, hnew, List.nil_append, itemRowsSpec_map]
  · rw [hins]
    show ((s.order_items ++ itemRowsSpec s oid s.next_item_id items).filter
      (fun oi => oi.order_id == oid)).length = _
    rw [List.filter_append]
    have hold : s.order_items.filter (fun oi => oi.order_id == oid) = [] := by
      rw [List.filter_eq_nil_iff]
      intro oi hoi
      simpa using hwf oi hoi
    have hnew : (itemRowsSpec s oid s.next_item_id items).filter
        (fun oi => oi.order_id == oid) = itemRowsSpec s oid s.next_item_id items := by
      rw [List.filter_eq_self]
      intro oi hoi
      simpa using itemRowsSpec_order_id s oid items s.next_item_id oi hoi
    rw [hold, hnew, List.nil_append, itemRowsSpec_length]

/-- C1 witness: an order of three line items (product 1 twice) against
`storeBase`. -/
theorem C1_witness :
    ∃ s1, add_order_with_items storeBase 1 [(1, 2), (2, 1), (1, 3)] "2024-03-05" =
        .ok (s1, storeBase.next_order_id) ∧
      s1.orders = storeBase.orders ++
        [⟨storeBase.next_order_id, 1, "2024-03-05",
          orderTotalSpec storeBase [(1, 2), (2, 1), (1, 3)]⟩] ∧
      ((s1.order_items.filter (fun oi => oi.order_id == storeBase.next_order_id)).map
        (fun oi => (oi.product_id, oi.quantity, oi.unit_price))) =
        [(1, 2), (2, 1), (1, 3)].map
          (fun pq => (pq.1, pq.2, (lookupPrice storeBase pq.1).getD 0)) ∧
      (s1.order_items.filter
        (fun oi => oi.order_id == storeBase.next_order_id)).length =
        ([(1, 2), (2, 1), (1, 3)] : List (Nat × Int)).length :=
  C1_add_order_total_and_items storeBase 1 [(1, 2), (2, 1), (1, 3)] "2024-03-05"
    (by decide) (by decide) (by decide)

theorem priceItems_badqty (s : Store) (items : List (Nat × Int)) :
    ∀ (t0 : Rat) (p0 : List (Nat × Rat)),
      (∀ pq ∈ items, (lookupPrice s pq.1).isSome = true) →
      (∃ pq ∈ items, pq.2 ≤ 0) →
      priceItems s items t0 p0 = .error .invalidQuantity := by
  induction items with
  | nil =>
    rintro t0 p0 - ⟨pq, hmem, -⟩
    exact absurd hmem (by simp)
  | cons pq rest ih =>
    rintro t0 p0 hsome ⟨bad, hmem, hbad⟩
    obtain ⟨pid, qty⟩ := pq
    by_cases hq : qty ≤ 0
    · simp only [priceItems, if_pos hq]
    · obtain ⟨price, hprice⟩ :=
        Option.isSome_iff_exists.mp (hsome (pid, qty) (by simp))
      simp only [priceItems, if_neg hq, hprice]
      rcases List.mem_cons.mp hmem with h | h
      · rw [h] at hbad
        exact absurd hbad hq
      · exact ih _ _ (fun x hx => hsome x (List.mem_cons_of_mem _ hx)) ⟨bad, h, hbad⟩

theorem priceItems_missing (s : Store) (items : List (Nat × Int)) :
    ∀ (t0 : Rat) (p0 : List (Nat × Rat)),
      (∀ pq ∈ items, 0 < pq.2) →
      (∃ pq ∈ items, lookupPrice s pq.1 = none) →
      ∃ pid, priceItems s items t0 p0 = .error (.productNotFound pid) ∧
        lookupPrice s pid = none := by
  induction items with
  | nil =>
    rintro t0 p0 - ⟨pq, hmem, -⟩
    exact absurd hmem (by simp)
  | cons pq rest ih =>
    rintro t0 p0 hpos ⟨bad, hmem, hbad⟩
    obtain ⟨pid, qty⟩ := pq
    have hq : ¬ qty ≤ 0 := by
      have := hpos (pid, qty) (by simp)
      omega
    cases hlook : lookupPrice s pid with
    | none =>
      exact ⟨pid, by simp only [priceItems, if_neg hq, hlook], hlook⟩
    | some price =>
      simp only [priceItems, if_neg hq, hlook]
      rcases List.mem_cons.mp hmem with h | h
      · rw [h] at hbad
        exact absurd (hlook.symm.trans hbad) (by simp)
      · exact ih _ _ (fun x hx => hpos x (List.mem_cons_of_mem _ hx)) ⟨bad, h, hbad⟩

theorem priceItems_err_of_bad (s : Store) (items : List (Nat × Int)) :
    ∀ (t0 : Rat) (p0 : List (Nat × Rat)),
      (∃ pq ∈ items, pq.2 ≤ 0 ∨ lookupPrice s pq.1 = none) →
      ∃ e, priceItems s items t0 p0 = .error e := by
  induction items with
  | nil =>
    rintro t0 p0 ⟨pq, hmem, -⟩
    exact absurd hmem (by simp)
  | cons pq rest ih =>
    rintro t0 p0 ⟨bad, hmem, hbad⟩
    obtain ⟨pid, qty⟩ := pq
    by_cases hq : qty ≤ 0
    · exact ⟨.invalidQuantity, by simp only [priceItems, if_pos hq]⟩
    · cases hlook : lookupPrice s pid with
      | none => exact ⟨.productNotFound pid, by simp only [priceItems, if_neg hq, hlook]⟩
      | some price =>
        simp only [priceItems, if_neg hq, hlook]
        rcases List.mem_cons.mp hmem with h | h
        · subst h
          rcases hbad with hb | hb
          · exact absurd hb hq
          · rw [hlook] at hb
            exact absurd hb (by simp)
        · exact ih _ _ ⟨bad, h, hbad⟩

/-- C2: `add_order_with_items` fails with the empty-cart error on an empty
items list, the invalid-quantity error when a quantity is ≤ 0, the
product-not-found error when a product id is missing (one of the two in a
mixed case) — and every failing call persists nothing: the store after the
call is the store before it. -/
theorem C2_add_order_errors (s : Store) (cid : Nat) (items : List (Nat × Int))
    (date : String) :
    (items = [] → add_order_with_items s cid items date = .error .emptyCart) ∧
    (items ≠ [] → (∀ pq ∈ items, (lookupPrice s pq.1).isSome = true) →
      (∃ pq ∈ items, pq.2 ≤ 0) →
      add_order_with_items s cid items date = .error .invalidQuantity) ∧
    (items ≠ [] → (∀ pq ∈ items, 0 < pq.2) →
      (∃ pq ∈ items, lookupPrice s pq.1 = none) →
      ∃ pid, add_order_with_items s cid items date = .error (.productNotFound pid) ∧
        lookupPrice s pid = none) ∧
    ((∃ pq ∈ items, pq.2 ≤ 0 ∨ lookupPrice s pq.1 = none) →
      ∃ e, add_order_with_items s cid items date = .error e) ∧
    (∀ e, add_order_with_items s cid items date = .error e →
      runAddOrder s cid items date = s) := by
  refine ⟨?_, ?_, ?_, ?_, ?_⟩
  · intro h
    subst h
    rfl
  · intro hne hsome hbad
    unfold add_order_with_items
    rw [if_neg (by simp [List.isEmpty_iff, hne]),
      priceItems_badqty s items 0 [] hsome hbad]
  · intro hne hpos hmiss
    obtain ⟨pid, hpi, hnone⟩ := priceItems_missing s items 0 [] hpos hmiss
    refine ⟨pid, ?_, hnone⟩
    unfold add_order_with_items
    rw [if_neg (by simp [List.isEmpty_iff, hne]), hpi]
  · intro hbad
    have hne : items ≠ [] := by
      obtain ⟨pq, hmem, -⟩ := hbad
      intro h
      rw [h] at hmem
      exact absurd hmem (by simp)
    obtain ⟨e, he⟩ := priceItems_err_of_bad s items 0 [] hbad
    refine ⟨e, ?_⟩
    unfold add_order_with_items
    rw [if_neg (by simp [List.isEmpty_iff, hne]), he]
  · intro e he
    unfold runAddOrder
    rw [he]

/-- C2 witness: the empty cart fails with the empty-cart error and leaves
the store unchanged. -/
theorem C2_witness :
    add_order_with_items storeBase 1 [] "2024-03-05" = .error .emptyCart ∧
    runAddOrder storeBase 1 [] "2024-03-05" = storeBase :=
  ⟨(C2_add_order_errors storeBase 1 [] "2024-03-05").1 rfl,
   (C2_add_order_errors storeBase 1 [] "2024-03-05").2.2.2.2 .emptyCart
     ((C2_add_order_errors storeBase 1 [] "2024-03-05").1 rfl)⟩

/-- C3: the schema declares `FOREIGN KEY(client_id) REFERENCES clients(id)`,
but the code never enables SQLite foreign-key enforcement, so
`add_order_with_items` succeeds and commits an order whose `client_id = 999`
has no matching client (the clients table is empty before and after). -/
theorem C3_fk_not_enforced :
    (add_order_with_items storeNoClients 999 [(1, 2)] "2024-01-01").isOk = true ∧
    ((runAddOrder storeNoClients 999 [(1, 2)] "2024-01-01").orders.map
      (fun o => (o.id, o.client_id, o.date))) = [(1, 999, "2024-01-01")] ∧
    (runAddOrder storeNoClients 999 [(1, 2)] "2024-01-01").clients = [] :=
  ⟨by decide, by decide, by decide⟩

/-! ### Ordering lemmas for the `ORDER BY` comparators -/

theorem strLeB_total : ∀ a b : List Char, strLeB a b = true ∨ strLeB b a = true
  | [], _ => Or.inl rfl
  | _ :: _, [] => Or.inr rfl
  | x :: xs, y :: ys => by
    rcases lt_trichotomy x y with h | h | h
    · exact Or.inl (by simp [strLeB, h])
    · subst h
      simp only [strLeB, if_neg (lt_irrefl x)]
      exact strLeB_total xs ys
    · exact Or.inr (by simp [strLeB, h])

theorem strLeB_trans : ∀ a b c : List Char,
    strLeB a b = true → strLeB b c = true → strLeB a c = true
  | [], _, _, _, _ => rfl
  | _ :: _, [], _, hab, _ => by simp [strLeB] at hab
  | _ :: _, _ :: _, [], _, hbc => by simp [strLeB] at hbc
  | x :: xs, y :: ys, z :: zs, hab, hbc => by
    simp only [strLeB] at hab hbc ⊢
    rcases lt_trichotomy x y with h1 | h1 | h1
    · rcases lt_trichotomy y z with h2 | h2 | h2
      · rw [if_pos (h1.trans h2)]
      · subst h2
        rw [if_pos h1]
      · rw [if_neg (asymm h2), if_pos h2] at hbc
        exact absurd hbc (by simp)
    · subst h1
      rw [if_neg (lt_irrefl x), if_neg (lt_irrefl x)] at hab
      rcases lt_trichotomy x z with h2 | h2 | h2
      · rw [if_pos h2]
      · subst h2
        rw [if_neg (lt_irrefl x), if_neg (lt_irrefl x)] at hbc ⊢
        exact strLeB_trans xs ys zs hab hbc
      · rw [if_neg (asymm h2), if_pos h2] at hbc
        exact absurd hbc (by simp)
    · rw [if_neg (asymm h1), if_pos h1] at hab
      exact absurd hab (by simp)

theorem keyedLe_total_of {α κ : Type} [LinearOrder κ] (m : α → κ) (le2 : α → α → Bool)
    (h2 : ∀ a b, le2 a b = true ∨ le2 b a = true) (a b : α) :
    keyedLe m le2 a b ∨ keyedLe m le2 b a := by
  rcases lt_trichotomy (m a) (m b) with h | h | h
  · exact Or.inr (Or.inl h)
  · rcases h2 a b with hb | hb
    · exact Or.inl (Or.inr ⟨h, hb⟩)
    · exact Or.inr (Or.inr ⟨h.symm, hb⟩)
  · exact Or.inl (Or.inl h)

theorem keyedLe_trans_of {α κ : Type} [LinearOrder κ] (m : α → κ) (le2 : α → α → Bool)
    (h2 : ∀ a b c, le2 a b = true → le2 b c = true → le2 a c = true) (a b c : α) :
    keyedLe m le2 a b → keyedLe m le2 b c → keyedLe m le2 a c := by
  rintro (h1 | ⟨he1, hb1⟩) (hc | ⟨he2, hb2⟩)
  · exact Or.inl (hc.trans h1)
  · exact Or.inl (by rw [← he2]; exact h1)
  · exact Or.inl (by rw [he1]; exact hc)
  · exact Or.inr ⟨he1.trans he2, h2 a b c hb1 hb2⟩

/-! ### Claim C7: top-5 rankings -/

/-- C7: both top-5 queries return at most 5 rows, the empty sequence when no
clients exist, rows sorted by the metric descending with name ascending on
ties; every client — including clients with zero orders or items, which count
as 0 — has its row in the full ordered result, of which the answer is the
5-row prefix. -/
theorem C7_top5_clients (s : Store) :
    (top5_clients_by_orders s).length ≤ 5 ∧
    (top5_clients_by_items s).length ≤ 5 ∧
    (s.clients = [] → top5_clients_by_orders s = [] ∧ top5_clients_by_items s = []) ∧
    List.Sorted ordersLe (top5_clients_by_orders s) ∧
    List.Sorted itemsLe (top5_clients_by_items s) ∧
    (∀ c ∈ s.clients,
      (c.name, c.email, ordersCount s c) ∈ sortedOrderRows s ∧
      (c.name, c.email, itemsCount s c) ∈ sortedItemRows s) ∧
    (∀ c ∈ s.clients, (∀ o ∈ s.orders, o.client_id ≠ c.id) →
      ordersCount s c = 0 ∧ itemsCount s c = 0) ∧
    top5_clients_by_orders s = (sortedOrderRows s).take 5 ∧
    top5_clients_by_items s = (sortedItemRows s).take 5 := by
  haveI : IsTotal (String × String × Nat) ordersLe :=
    ⟨keyedLe_total_of _ _ (fun x y => strLeB_total x.1.data y.1.data)⟩
  haveI : IsTrans (String × String × Nat) ordersLe :=
    ⟨keyedLe_trans_of _ _ (fun x y z => strLeB_trans x.1.data y.1.data z.1.data)⟩
  haveI : IsTotal (String × String × Int) itemsLe :=
    ⟨keyedLe_total_of _ _ (fun x y => strLeB_total x.1.data y.1.data)⟩
  haveI : IsTrans (String × String × Int) itemsLe :=
    ⟨keyedLe_trans_of _ _ (fun x y z => strLeB_trans x.1.data y.1.data z.1.data)⟩
  refine ⟨?_, ?_, ?_, ?_, ?_, ?_, ?_, rfl, rfl⟩
  · rw [top5_clients_by_orders, List.length_take]
    omega
  · rw [top5_clients_by_items, List.length_take]
    omega
  · intro h
    constructor
    · simp [top5_clients_by_orders, sortedOrderRows, h, List.insertionSort]
    · simp [top5_clients_by_items, sortedItemRows, h, List.insertionSort]
  · exact (List.sorted_insertionSort ordersLe _).sublist (List.take_sublist _ _)
  · exact (List.sorted_insertionSort itemsLe _).sublist (List.take_sublist _ _)
  · intro c hc
    constructor
    · exact (List.perm_insertionSort ordersLe _).mem_iff.mpr
        (List.mem_map_of_mem _ hc)
    · exact (List.perm_insertionSort itemsLe _).mem_iff.mpr
        (List.mem_map_of_mem _ hc)
  · intro c hc hno
    have hfil : s.orders.filter (fun o => o.client_id == c.id) = [] := by
      rw [List.filter_eq_nil_iff]
      intro o ho
      simpa using hno o ho
    constructor
    · rw [ordersCount, hfil]
      rfl
    · rw [itemsCount, hfil]
      rfl

/-- C7 witness: both rankings are the empty sequence on a store without
clients. -/
theorem C7_witness :
    top5_clients_by_orders ⟨[], [], [], [], 1, 1⟩ = [] ∧
    top5_clients_by_items ⟨[], [], [], [], 1, 1⟩ = [] :=
  (C7_top5_clients ⟨[], [], [], [], 1, 1⟩).2.2.1 rfl

/-! ### Claim C4: purchase history -/

theorem groupRows_map_fst (rows : List (String × Int × String)) :
    (groupRows rows).map (fun r => r.1) = (rows.map (fun r => r.1)).dedup := by
  rw [groupRows, List.map_map]
  exact List.map_id' _

/-- C4 counterexample: client 1 purchased two distinct products (ids 1 and 2)
that share the name `"Apple"`; the history query groups by `p.name` and
returns a single row, not one row per distinct product. -/
theorem C4_counterexample :
    (get_client_purchase_history storeTwoApples 1).length = 1 ∧
    ((storeTwoApples.order_items.filter (fun oi =>
        storeTwoApples.orders.any (fun o => o.id == oi.order_id && o.client_id == 1))).map
      (fun oi => oi.product_id)).dedup.length = 2 :=
  ⟨by decide, by decide⟩

/-- C4 amended: `get_client_purchase_history` returns one row per distinct
product *name* purchased by the client (names joined through the client's
orders), with the quantities summed, the byte-wise maximal (latest) order
date, and rows sorted by total quantity descending, ties by date
descending. -/
theorem C4_history_grouped_by_name (s : Store) (cid : Nat) :
    ((get_client_purchase_history s cid).map (fun r => r.1)).Nodup ∧
    (∀ n, n ∈ (get_client_purchase_history s cid).map (fun r => r.1) ↔
      n ∈ (purchase_rows s cid).map (fun r => r.1)) ∧
    (∀ r ∈ get_client_purchase_history s cid,
      r.2.1 = (((purchase_rows s cid).filter (fun x => x.1 == r.1)).map
        (fun x => x.2.1)).sum ∧
      r.2.2 = (((purchase_rows s cid).filter (fun x => x.1 == r.1)).map
        (fun x => x.2.2)).foldl sMax "") ∧
    List.Sorted histLe (get_client_purchase_history s cid) ∧
    (get_client_purchase_history s cid).length =
      ((purchase_rows s cid).map (fun r => r.1)).dedup.length := by
  haveI : IsTotal (String × Int × String) histLe :=
    ⟨keyedLe_total_of _ _ (fun x y => strLeB_total y.2.2.data x.2.2.data)⟩
  haveI : IsTrans (String × Int × String) histLe :=
    ⟨keyedLe_trans_of _ _ (fun x y z h1 h2 => strLeB_trans _ _ _ h2 h1)⟩
  have hperm : List.Perm (get_client_purchase_history s cid)
      (groupRows (purchase_rows s cid)) :=
    List.perm_insertionSort histLe _
  refine ⟨?_, ?_, ?_, ?_, ?_⟩
  · rw [(hperm.map _).nodup_iff, groupRows_map_fst]
    exact List.nodup_dedup _
  · intro n
    rw [(hperm.map _).mem_iff, groupRows_map_fst]
    exact List.mem_dedup
  · intro r hr
    obtain ⟨n, hn, hrn⟩ := List.mem_map.mp (hperm.mem_iff.mp hr)
    subst hrn
    exact ⟨rfl, rfl⟩
  · exact List.sorted_insertionSort histLe _
  · rw [hperm.length_eq, ← groupRows_map_fst, List.length_map]

/-- C4 witness: the amended properties at the concrete two-Apples store. -/
theorem C4_witness :
    List.Sorted histLe (get_client_purchase_history storeTwoApples 1) ∧
    ((get_client_purchase_history storeTwoApples 1).map (fun r => r.1)).Nodup :=
  ⟨(C4_history_grouped_by_name storeTwoApples 1).2.2.2.1,
   (C4_history_grouped_by_name storeTwoApples 1).1⟩

/-! ### Claim C10: bulk import is all-or-nothing per call -/

theorem import_clients_err_iff : ∀ (rows : List ClientRow) (s : Store),
    (∃ e, import_clients s rows = .error e) ↔
      ∃ i, ∃ h : i < rows.length,
        rowClash (s.clients ++ rows.take i) (rows.get ⟨i, h⟩) = true := by
  intro rows
  induction rows with
  | nil =>
    intro s
    constructor
    · rintro ⟨e, he⟩
      simp [import_clients] at he
    · rintro ⟨i, h, -⟩
      simp at h
  | cons r rest ih =>
    intro s
    by_cases hc : rowClash s.clients r = true
    · constructor
      · intro _
        exact ⟨0, by simp, by simpa using hc⟩
      · intro _
        exact ⟨.constraintViolation, by simp [import_clients, hc]⟩
    · rw [Bool.not_eq_true] at hc
      have hstep : import_clients s (r :: rest) =
          import_clients { s with clients := s.clients ++ [r] } rest := by
        simp [import_clients, hc]
      rw [hstep, ih { s with clients := s.clients ++ [r] }]
      constructor
      · rintro ⟨i, h, hclash⟩
        refine ⟨i + 1, by simpa using h, ?_⟩
        simpa [List.append_assoc] using hclash
      · rintro ⟨i, h, hclash⟩
        cases i with
        | zero =>
          simp only [List.take_zero, List.append_nil, List.get] at hclash
          exact absurd hclash (by simp [hc])
        | succ i =>
          refine ⟨i, by simpa using h, ?_⟩
          simpa [List.append_assoc] using hclash

/-- C10: the import loop commits only after every row inserted; it raises
exactly when some row violates a `clients` constraint against the table as
extended by the rows before it, and on any failure the persisted store is the
pre-call store — rows inserted before the failing row are rolled back. -/
theorem C10_import_all_or_nothing (s : Store) (rows : List ClientRow) :
    ((∃ e, import_clients s rows = .error e) ↔
      ∃ i, ∃ h : i < rows.length,
        rowClash (s.clients ++ rows.take i) (rows.get ⟨i, h⟩) = true) ∧
    (∀ e, import_clients s rows = .error e → run_import_clients s rows = s) := by
  refine ⟨import_clients_err_iff rows s, ?_⟩
  intro e he
  unfold run_import_clients
  rw [he]

/-- C10 witness: importing a row whose e-mail duplicates an existing client
raises and leaves the store unchanged. -/
theorem C10_witness :
    run_import_clients storeBase [⟨2, "D", "c@x.com", "+70000000000", "B"⟩] = storeBase :=
  (C10_import_all_or_nothing storeBase [⟨2, "D", "c@x.com", "+70000000000", "B"⟩]).2
    .constraintViolation rfl
